import Mathlib

/-!
Verification of `rush publish` (`apps/rush/src/actions/PublishAction.ts`).

Shallow embedding of the `PublishAction` class. The action orchestrates a
release: it applies pending change records to package manifests, updates
changelogs, performs git branch/commit/tag/push operations and npm registry
publishes, with every external process invocation funnelled through the
`_execCommand` dry-run gate.

The embedding represents one run as a list of `Event`s: console log lines,
command-gate invocations (with their `shouldExecute` bit), actual process
spawns, and calls to the external collaborators (`PublishUtilities`,
`ChangelogGenerator`, `ChangeFiles`). External inputs that the action merely
consumes — the resolved change records, the project registry, the process
environment, the registry client's published-version lists, the git-policy
verdict, the timestamp — are parameters.
-/

namespace RushPublish

/-- Process environments are JS objects keyed by variable name; modelled as
association lists with unique keys. -/
abbrev Env := List (String × String)

/-- JS truthiness of an optional CLI string parameter: `undefined` and the
empty string are falsy (the source tests `!!param.value` / `if (param.value)`). -/
def jsTruthy : Option String → Bool
  | none => false
  | some s => !(s = "")

/-- JS string interpolation of a possibly-`undefined` value: template literals
render `undefined` as the string `"undefined"`. -/
def optStr : Option String → String
  | none => "undefined"
  | some s => s

/-- JS object assignment `env[key] = value`: overwrites in place when the key
exists, otherwise appends a new binding. -/
def setEnvVar (env : Env) (key value : String) : Env :=
  if env.any (fun p => p.1 = key) then
    env.map (fun p => if p.1 = key then (key, value) else p)
  else
    env ++ [(key, value)]

/-- First binding of `key` in the environment (keys are unique in a JS object). -/
def lookupEnv (env : Env) (key : String) : Option String :=
  (env.find? (fun p => p.1 = key)).map (fun p => p.2)

/-- Modelled from the spec: the `ChangeType` enum of `@microsoft/rush-lib`
(not under `src/`). The spec orders it `none < dependency < patch < minor <
major`; the source only compares with `> ChangeType.dependency`. -/
inductive ChangeType where
  | none
  | dependency
  | patch
  | minor
  | major
deriving DecidableEq

/-- Numeric value of the TS enum member, fixing the order the spec states. -/
def ChangeType.toNat : ChangeType → Nat
  | .none => 0
  | .dependency => 1
  | .patch => 2
  | .minor => 3
  | .major => 4

/-- The TS comparison `a > b` on the numeric enum. -/
def ChangeType.above (a b : ChangeType) : Bool :=
  b.toNat < a.toNat

/-- One resolved change record (`IChangeInfo`), as consumed by this action. -/
structure ChangeInfo where
  packageName : String
  changeType : ChangeType
  newVersion : String
deriving DecidableEq

/-- One project of the monorepo (`RushConfigurationProject`), restricted to the
fields this action reads; `version` is `packageJson.version`. -/
structure RushProject where
  packageName : String
  projectFolder : String
  shouldPublish : Bool
  version : String
deriving DecidableEq

/-- Lookup `projectsByName.get name` over the project registry, modelled as an
association list keyed by `packageName`. -/
def findProject (projects : List RushProject) (name : String) : Option RushProject :=
  projects.find? (fun p => p.packageName = name)

/-- The resolved CLI parameters of one run (flags are booleans, string
parameters are `none` when not supplied). -/
structure Ctx where
  apply : Bool
  publish : Bool
  includeAll : Bool
  force : Bool
  addCommitDetails : Bool
  regenerateChangelogs : Bool
  targetBranch : Option String
  registryUrl : Option String
  npmAuthToken : Option String
  prereleaseName : Option String
  suffix : Option String
deriving DecidableEq

/-- Ambient process state read by the action: `process.cwd()`, `process.env`,
and `rushConfiguration.npmToolFilename`. -/
structure SysCtx where
  cwd : String
  processEnv : Env
  npmToolFilename : String
deriving DecidableEq

/-- Modelled from the spec: `PrereleaseToken.hasValue` (class not under
`src/`); true iff a prerelease name or a suffix was supplied. -/
def prereleaseHasValue (ctx : Ctx) : Bool :=
  jsTruthy ctx.prereleaseName || jsTruthy ctx.suffix

/-- One invocation of the `_execCommand` gate, as recorded in the trace. -/
structure GateCall where
  shouldExecute : Bool
  command : String
  args : List String
  workingDirectory : String
  extraEnv : Option Env
deriving DecidableEq

/-- Observable events of one run. `spawn` is an actual synchronous process
execution (`Utilities.executeCommand`); `gate` records that `_execCommand` was
invoked and with which `shouldExecute` bit; the remaining constructors are the
calls to external collaborators, carrying the boolean that gates their own
side effects. -/
inductive Event where
  | log (line : String)
  | gate (call : GateCall)
  | spawn (command : String) (args : List String) (cwd : String) (extraEnv : Option Env)
  | updatePackages (shouldCommit : Bool)
  | updateChangelogs (shouldCommit : Bool)
  | deleteChangeFiles (really : Bool)
  | regenChangelogsAll
deriving DecidableEq

/-- Is this event an actual process spawn? -/
def Event.isSpawn : Event → Bool
  | .spawn _ _ _ _ => true
  | _ => false

/-- Is this event a console log line? -/
def Event.isLog : Event → Bool
  | .log _ => true
  | _ => false

/-- Is this event a command-gate invocation? -/
def Event.isGate : Event → Bool
  | .gate _ => true
  | _ => false

/-- Does this event pass `true` to a file-mutating collaborator
(`updatePackages` / `updateChangelogs` / `deleteAll`)? -/
def Event.isRealMutation : Event → Bool
  | .updatePackages b => b
  | .updateChangelogs b => b
  | .deleteChangeFiles b => b
  | _ => false

/-- Is this event the `ChangelogGenerator.updateChangelogs` call? -/
def Event.isChangelogUpdate : Event → Bool
  | .updateChangelogs _ => true
  | _ => false

/-- Is this event the `changeFiles.deleteAll` call? -/
def Event.isChangeFileDeletion : Event → Bool
  | .deleteChangeFiles _ => true
  | _ => false

/-- Shallow model of Node's `path.relative(from, to)`: empty exactly when the
two paths coincide (the only property the action depends on — the default
working directory `process.cwd()` renders without a parenthesised suffix). -/
def pathRelative (frm dest : String) : String :=
  if frm = dest then "" else dest

/-- Embeds `args.join(' ')`. -/
def joinSpace (args : List String) : String :=
  String.intercalate " " args

/-- The single line `_execCommand` prints: `` `${EOL}* ${shouldExecute ?
'EXECUTING' : 'DRYRUN'}: ${command} ${args.join(' ')} ${relativeDirectory}` ``
where `relativeDirectory` is parenthesised when non-empty. -/
def execLine (shouldExecute : Bool) (command : String) (args : List String)
    (relDisplay : String) : String :=
  "\n* " ++ (if shouldExecute then "EXECUTING" else "DRYRUN") ++ ": " ++ command
    ++ " " ++ joinSpace args ++ " " ++ relDisplay

/-- The parenthesised working-directory suffix of the gate's log line: empty
when the relative directory is empty. -/
def relDirDisplay (sys : SysCtx) (workingDirectory : String) : String :=
  let relativeDirectory := pathRelative sys.cwd workingDirectory
  if relativeDirectory = "" then "" else "(" ++ relativeDirectory ++ ")"

/-- Embeds `_execCommand(shouldExecute, command, args, workingDirectory, env)`:
always prints one line; spawns the process iff `shouldExecute`. -/
def execCommand (sys : SysCtx) (shouldExecute : Bool) (command : String)
    (args : List String) (workingDirectory : String) (extraEnv : Option Env) :
    List Event :=
  [Event.log (execLine shouldExecute command args (relDirDisplay sys workingDirectory)),
   Event.gate ⟨shouldExecute, command, args, workingDirectory, extraEnv⟩]
    ++ (if shouldExecute then [Event.spawn command args workingDirectory extraEnv] else [])

/-- Embeds `_gitCheckout(branchName, createBranch)`: builds
`checkout [-b ]branchName`, splits on spaces, gated by target-branch presence. -/
def gitCheckout (ctx : Ctx) (sys : SysCtx) (branchName : String)
    (createBranch : Bool) : List Event :=
  let params := "checkout " ++ (if createBranch then "-b " else "") ++ branchName
  execCommand sys (jsTruthy ctx.targetBranch) "git" (params.splitOn " ") sys.cwd none

/-- Embeds `_gitMerge(branchName)`. -/
def gitMerge (ctx : Ctx) (sys : SysCtx) (branchName : String) : List Event :=
  execCommand sys (jsTruthy ctx.targetBranch) "git"
    (("merge " ++ branchName ++ " --no-edit").splitOn " ") sys.cwd none

/-- Embeds `_gitDeleteBranch(branchName)`: deletes the local branch, then the remote. -/
def gitDeleteBranch (ctx : Ctx) (sys : SysCtx) (branchName : String) : List Event :=
  execCommand sys (jsTruthy ctx.targetBranch) "git"
      (("branch -d " ++ branchName).splitOn " ") sys.cwd none
    ++ execCommand sys (jsTruthy ctx.targetBranch) "git"
      (("push origin --delete " ++ branchName).splitOn " ") sys.cwd none

/-- Embeds `_gitPull()`. -/
def gitPull (ctx : Ctx) (sys : SysCtx) : List Event :=
  execCommand sys (jsTruthy ctx.targetBranch) "git"
    (("pull origin " ++ optStr ctx.targetBranch).splitOn " ") sys.cwd none

/-- Embeds `_gitAddChanges()`. -/
def gitAddChanges (ctx : Ctx) (sys : SysCtx) : List Event :=
  execCommand sys (jsTruthy ctx.targetBranch) "git" ["add", "."] sys.cwd none

/-- Embeds `_gitCommit()`. -/
def gitCommit (ctx : Ctx) (sys : SysCtx) : List Event :=
  execCommand sys (jsTruthy ctx.targetBranch) "git"
    ["commit", "-m", "\"Applying package updates.\""] sys.cwd none

/-- Embeds `_gitPush(branchName)`. -/
def gitPush (ctx : Ctx) (sys : SysCtx) (branchName : String) : List Event :=
  execCommand sys (jsTruthy ctx.targetBranch) "git"
    ["push", "origin", "HEAD:" ++ branchName, "--follow-tags", "--verbose"] sys.cwd none

/-- Modelled from the spec: `PublishUtilities.createTagname` (not under
`src/`) — a deterministic, injective, ref-safe map from (name, version) to a
tag string. -/
def createTagname (packageName packageVersion : String) : String :=
  packageName ++ "_v" ++ packageVersion

/-- Embeds `_gitAddTag(packageName, packageVersion)`: annotated tag, gated by
target branch present AND publishing AND no registry override. -/
def gitAddTag (ctx : Ctx) (sys : SysCtx) (packageName packageVersion : String) :
    List Event :=
  let tagName := createTagname packageName packageVersion
  execCommand sys
    (jsTruthy ctx.targetBranch && ctx.publish && !(jsTruthy ctx.registryUrl))
    "git"
    ["tag", "-a", tagName, "-m", "\"" ++ packageName ++ " v" ++ packageVersion ++ "\""]
    sys.cwd none

/-- Index of the first occurrence of `pat` in `s` (as a character list),
or `none`: models JS `String.indexOf`. -/
def firstIndexOf (s pat : List Char) : Option Nat :=
  if pat.isPrefixOf s then some 0
  else
    match s with
    | [] => none
    | _ :: rest => (firstIndexOf rest pat).map (fun i => i + 1)

/-- Embeds `registryUrl.substring(registryUrl.indexOf('//'))`: JS `substring` clamps
a negative start (i.e. `indexOf` returned `-1`) to `0`. -/
def registryFromUrl (url : String) : String :=
  match firstIndexOf url.data ['/', '/'] with
  | some i => String.mk (url.data.drop i)
  | none => url

/-- The environment/registry pair `_npmPublish` builds: the copied process
environment with `npm_config_registry` overridden when `--registry` was
supplied, paired with the auth-token registry prefix. -/
def npmRegistryPair (ctx : Ctx) (sys : SysCtx) : Env × String :=
  match ctx.registryUrl with
  | some url =>
    if url = "" then (sys.processEnv, "//registry.npmjs.org/")
    else (setEnvVar sys.processEnv "npm_config_registry" url, registryFromUrl url)
  | none => (sys.processEnv, "//registry.npmjs.org/")

/-- The argument list `_npmPublish` hands the npm tool. -/
def npmPublishArgs (ctx : Ctx) (sys : SysCtx) : List String :=
  ["publish"]
    ++ (match ctx.npmAuthToken with
        | some tok =>
          if tok = "" then []
          else ["--" ++ (npmRegistryPair ctx sys).2 ++ ":_authToken=" ++ tok]
        | none => [])
    ++ (if ctx.force then ["--force"] else [])

/-- Embeds `_npmPublish(packageName, packagePath)`: looks the project up again in the
registry map (`none` models the TS crash on a missing key); when the project's
`shouldPublish` is false nothing happens — not even the gate log; otherwise
invokes the gate with `shouldExecute = publish flag`, passing the copied
process environment with the registry override applied. -/
def npmPublish (ctx : Ctx) (sys : SysCtx) (projects : List RushProject)
    (packageName packagePath : String) : Option (List Event) :=
  (findProject projects packageName).map (fun proj =>
    if proj.shouldPublish then
      execCommand sys ctx.publish sys.npmToolFilename (npmPublishArgs ctx sys)
        packagePath (some (npmRegistryPair ctx sys).1)
    else [])

/-- The per-change-record publish step inside `_publishChanges`: records with
`changeType > dependency` are handed to `_npmPublish` with the project's
folder; others contribute nothing. -/
def publishStepFor (ctx : Ctx) (sys : SysCtx) (projects : List RushProject)
    (change : ChangeInfo) : Option (List Event) :=
  if change.changeType.above .dependency then
    (findProject projects change.packageName).bind (fun proj =>
      npmPublish ctx sys projects change.packageName proj.projectFolder)
  else some []

/-- The per-change-record tag step inside `_gitAddTags`: records with
`changeType > dependency` whose project has `shouldPublish` get a tag. -/
def tagStepFor (ctx : Ctx) (sys : SysCtx) (projects : List RushProject)
    (change : ChangeInfo) : Option (List Event) :=
  if change.changeType.above .dependency then
    (findProject projects change.packageName).map (fun proj =>
      if proj.shouldPublish then
        gitAddTag ctx sys change.packageName change.newVersion
      else [])
  else some []

/-- Sequence a list of optional traces, concatenating on success (`none`
models the TS crash propagating). -/
def seqOpt : List (Option (List Event)) → Option (List Event)
  | [] => some []
  | o :: rest => o.bind (fun a => (seqOpt rest).map (fun b => a ++ b))

/-- The prefix of `_publishChanges` before the publish loop: temp-branch
checkout, manifest update, (unless prerelease) changelog update and change-file
deletion, then stage/commit/push. -/
def selectivePre (ctx : Ctx) (sys : SysCtx) (tempBranch : String) : List Event :=
  gitCheckout ctx sys tempBranch true
    ++ [Event.updatePackages ctx.apply]
    ++ (if prereleaseHasValue ctx then []
        else
          [Event.updateChangelogs ctx.apply,
           Event.deleteChangeFiles (ctx.apply || jsTruthy ctx.targetBranch)])
    ++ gitAddChanges ctx sys
    ++ gitCommit ctx sys
    ++ gitPush ctx sys tempBranch

/-- The suffix of `_publishChanges` after the tag loop: push tags, check out
the target branch, pull, merge, push, delete the temp branch. -/
def selectivePost (ctx : Ctx) (sys : SysCtx) (tempBranch : String) : List Event :=
  gitPush ctx sys tempBranch
    ++ gitCheckout ctx sys (optStr ctx.targetBranch) false
    ++ gitPull ctx sys
    ++ gitMerge ctx sys tempBranch
    ++ gitPush ctx sys (optStr ctx.targetBranch)
    ++ gitDeleteBranch ctx sys tempBranch

/-- Embeds `_publishChanges` after change resolution: `orderedChanges` is the sorted
change-record list the external resolver returned, `now` the run timestamp
used for the temp branch name. When the list is empty nothing at all happens. -/
def publishChanges (ctx : Ctx) (sys : SysCtx) (projects : List RushProject)
    (orderedChanges : List ChangeInfo) (now : Nat) : Option (List Event) :=
  if 0 < orderedChanges.length then
    (seqOpt (orderedChanges.map (publishStepFor ctx sys projects))).bind (fun pub =>
      (seqOpt (orderedChanges.map (tagStepFor ctx sys projects))).map (fun tags =>
        selectivePre ctx sys ("publish-" ++ toString now) ++ pub ++ tags
          ++ selectivePost ctx sys ("publish-" ++ toString now)))
  else some []

/-- The environment `_packageExists` hands to the registry client: the copied
process environment, with `npm_config_registry` overridden when `--registry`
was supplied. -/
def packageExistsEnv (ctx : Ctx) (sys : SysCtx) : Env :=
  match ctx.registryUrl with
  | some url =>
    if url = "" then sys.processEnv
    else setEnvVar sys.processEnv "npm_config_registry" url
  | none => sys.processEnv

/-- Embeds `_packageExists(packageConfig)`: membership of the project's current
version in the registry client's published-version list
(`publishedVersions.indexOf(version) >= 0`). `registryClient` stands for
`Npm.publishedVersions(name, cwd, env)`. -/
def packageExists (ctx : Ctx) (sys : SysCtx)
    (registryClient : String → String → Env → List String)
    (proj : RushProject) : Bool :=
  (registryClient proj.packageName proj.projectFolder
      (packageExistsEnv ctx sys)).contains proj.version

/-- The skip log line of `_publishAll`. -/
def skipLine (packageName : String) : String :=
  "Skip " ++ packageName ++ ". Not updated."

/-- One iteration of the `_publishAll` scan; returns the events and whether
this project set `updated`. -/
def publishAllStep (ctx : Ctx) (sys : SysCtx)
    (registryClient : String → String → Env → List String)
    (projects : List RushProject) (proj : RushProject) :
    Option (List Event × Bool) :=
  if proj.shouldPublish then
    if ctx.force || !(packageExists ctx sys registryClient proj) then
      (npmPublish ctx sys projects proj.packageName proj.projectFolder).map
        (fun evs => (evs ++ gitAddTag ctx sys proj.packageName proj.version, true))
    else some ([Event.log (skipLine proj.packageName)], false)
  else some ([], false)

/-- The `allPackages.forEach` scan of `_publishAll`, accumulating `updated`. -/
def publishAllLoop (ctx : Ctx) (sys : SysCtx)
    (registryClient : String → String → Env → List String)
    (projects : List RushProject) : List RushProject → Option (List Event × Bool)
  | [] => some ([], false)
  | proj :: rest =>
    (publishAllStep ctx sys registryClient projects proj).bind (fun p =>
      (publishAllLoop ctx sys registryClient projects rest).map (fun q =>
        (p.1 ++ q.1, p.2 || q.2)))

/-- Embeds `_publishAll(allPackages)`: scan every project; afterwards push the target
branch iff some project was updated. -/
def publishAll (ctx : Ctx) (sys : SysCtx)
    (registryClient : String → String → Env → List String)
    (projects : List RushProject) : Option (List Event) :=
  (publishAllLoop ctx sys registryClient projects projects).map (fun p =>
    p.1 ++ (if p.2 then gitPush ctx sys (optStr ctx.targetBranch) else []))

/-- The opening `console.log` of `onExecute`. -/
def startLine : String := "Starting \"rush publish\" \n"

/-- The closing `console.log` of `onExecute` (`colors.green` rendering
dropped). -/
def finishLine : String := "\nRush publish finished successfully."

/-- Embeds `onExecute()`: policy precondition gate, then mode selection between
changelog regeneration, `_publishAll` and `_publishChanges`. Returns the exit
code and the trace (`none` models a TS crash inside a workflow). `policyOk` is
`GitPolicy.check`'s verdict; the change resolution performed at the start of
`_publishChanges` is an external call whose result is `orderedChanges`. -/
def onExecute (ctx : Ctx) (sys : SysCtx) (projects : List RushProject)
    (registryClient : String → String → Env → List String)
    (orderedChanges : List ChangeInfo) (now : Nat) (policyOk : Bool) :
    Option (Nat × List Event) :=
  let startEvs : List Event := [Event.log startLine]
  if policyOk = false then
    some (1, startEvs)
  else if ctx.regenerateChangelogs then
    some (0, startEvs ++ [Event.log "Regenerating changelogs", Event.regenChangelogsAll])
  else if ctx.includeAll && ctx.publish then
    (publishAll ctx sys registryClient projects).map (fun tr =>
      (0, startEvs ++ tr ++ [Event.log finishLine]))
  else
    (publishChanges ctx sys projects orderedChanges now).map (fun tr =>
      (0, startEvs ++ tr ++ [Event.log finishLine]))

/-! ## Trace infrastructure -/

/-- A trace with no real side effect: no process spawned, every gate
invocation carries `shouldExecute = false`, every collaborator call carries a
false mutation bit — and still one log line per gate invocation. -/
def DryTrace (tr : List Event) : Prop :=
  (∀ e ∈ tr, e.isSpawn = false) ∧
  (∀ c, Event.gate c ∈ tr → c.shouldExecute = false) ∧
  (∀ e ∈ tr, e.isRealMutation = false) ∧
  tr.countP Event.isLog = tr.countP Event.isGate

theorem dryTrace_nil : DryTrace [] :=
  ⟨by simp, by simp, by simp, rfl⟩

theorem dryTrace_append {a b : List Event} (h1 : DryTrace a) (h2 : DryTrace b) :
    DryTrace (a ++ b) := by
  obtain ⟨s1, g1, m1, c1⟩ := h1
  obtain ⟨s2, g2, m2, c2⟩ := h2
  refine ⟨?_, ?_, ?_, ?_⟩
  · intro e he
    rcases List.mem_append.mp he with h | h
    exacts [s1 e h, s2 e h]
  · intro c hc
    rcases List.mem_append.mp hc with h | h
    exacts [g1 c h, g2 c h]
  · intro e he
    rcases List.mem_append.mp he with h | h
    exacts [m1 e h, m2 e h]
  · simp only [List.countP_append, c1, c2]

theorem execCommand_false_eq (sys : SysCtx) (cmd : String) (args : List String)
    (wd : String) (env : Option Env) :
    execCommand sys false cmd args wd env
      = [Event.log (execLine false cmd args (relDirDisplay sys wd)),
         Event.gate ⟨false, cmd, args, wd, env⟩] := by
  simp [execCommand]

theorem dryTrace_execCommand (sys : SysCtx) (cmd : String) (args : List String)
    (wd : String) (env : Option Env) :
    DryTrace (execCommand sys false cmd args wd env) := by
  rw [execCommand_false_eq]
  refine ⟨?_, ?_, ?_, rfl⟩
  · intro e he
    simp only [List.mem_cons, List.mem_singleton, List.not_mem_nil, or_false] at he
    rcases he with rfl | rfl <;> rfl
  · intro c hc
    simp only [List.mem_cons, List.mem_singleton, List.not_mem_nil, or_false] at hc
    rcases hc with hc | hc
    · exact absurd hc (by simp)
    · cases hc
      rfl
  · intro e he
    simp only [List.mem_cons, List.mem_singleton, List.not_mem_nil, or_false] at he
    rcases he with rfl | rfl <;> rfl

theorem dryTrace_collab (b : Bool) (h : b = false) :
    DryTrace [Event.updatePackages b] := by
  subst h
  exact ⟨by simp [Event.isSpawn], by simp, by simp [Event.isRealMutation], rfl⟩

theorem dryTrace_seqOpt {l : List (Option (List Event))} {tr : List Event}
    (hall : ∀ o ∈ l, ∀ evs, o = some evs → DryTrace evs)
    (h : seqOpt l = some tr) : DryTrace tr := by
  induction l generalizing tr with
  | nil =>
    simp only [seqOpt, Option.some.injEq] at h
    subst h
    exact dryTrace_nil
  | cons o rest ih =>
    cases o with
    | none => simp [seqOpt] at h
    | some a =>
      cases hrest : seqOpt rest with
      | none => simp [seqOpt, hrest] at h
      | some b =>
        simp only [seqOpt, hrest, Option.some_bind, Option.map_some',
          Option.some.injEq] at h
        subst h
        exact dryTrace_append (hall (some a) (by simp) a rfl)
          (ih (fun o ho evs he => hall o (by simp [ho]) evs he) hrest)

theorem dryTrace_npmPublish {ctx : Ctx} {sys : SysCtx}
    {projects : List RushProject} {name path : String} {evs : List Event}
    (hP : ctx.publish = false)
    (h : npmPublish ctx sys projects name path = some evs) : DryTrace evs := by
  unfold npmPublish at h
  cases hf : findProject projects name with
  | none => rw [hf] at h; simp at h
  | some proj =>
    rw [hf] at h
    simp only [Option.map_some', Option.some.injEq] at h
    subst h
    by_cases hsp : proj.shouldPublish
    · simp only [hsp, if_true, hP]
      exact dryTrace_execCommand _ _ _ _ _
    · simp only [hsp, if_false, Bool.false_eq_true]
      exact dryTrace_nil

theorem dryTrace_publishStepFor {ctx : Ctx} {sys : SysCtx}
    {projects : List RushProject} {change : ChangeInfo} {evs : List Event}
    (hP : ctx.publish = false)
    (h : publishStepFor ctx sys projects change = some evs) : DryTrace evs := by
  unfold publishStepFor at h
  split at h
  · cases hf : findProject projects change.packageName with
    | none => rw [hf] at h; simp at h
    | some proj =>
      rw [hf] at h
      simp only [Option.some_bind] at h
      exact dryTrace_npmPublish hP h
  · simp only [Option.some.injEq] at h
    subst h
    exact dryTrace_nil

theorem dryTrace_tagStepFor {ctx : Ctx} {sys : SysCtx}
    {projects : List RushProject} {change : ChangeInfo} {evs : List Event}
    (hB : jsTruthy ctx.targetBranch = false)
    (h : tagStepFor ctx sys projects change = some evs) : DryTrace evs := by
  unfold tagStepFor at h
  split at h
  · cases hf : findProject projects change.packageName with
    | none => rw [hf] at h; simp at h
    | some proj =>
      rw [hf] at h
      simp only [Option.map_some', Option.some.injEq] at h
      subst h
      by_cases hsp : proj.shouldPublish
      · simp only [hsp, if_true]
        unfold gitAddTag
        rw [hB]
        simp only [Bool.false_and]
        exact dryTrace_execCommand _ _ _ _ _
      · simp only [hsp, if_false, Bool.false_eq_true]
        exact dryTrace_nil
  · simp only [Option.some.injEq] at h
    subst h
    exact dryTrace_nil

theorem dryTrace_selectivePre {ctx : Ctx} {sys : SysCtx} {tempBranch : String}
    (hA : ctx.apply = false) (hB : jsTruthy ctx.targetBranch = false) :
    DryTrace (selectivePre ctx sys tempBranch) := by
  unfold selectivePre gitCheckout gitAddChanges gitCommit gitPush
  rw [hB]
  have hmid : DryTrace
      (if prereleaseHasValue ctx = true then ([] : List Event)
       else [Event.updateChangelogs ctx.apply,
             Event.deleteChangeFiles (ctx.apply || false)]) := by
    split
    · exact dryTrace_nil
    · rw [hA]
      exact ⟨by simp [Event.isSpawn], by simp, by simp [Event.isRealMutation], rfl⟩
  exact dryTrace_append
    (dryTrace_append
      (dryTrace_append
        (dryTrace_append
          (dryTrace_append (dryTrace_execCommand _ _ _ _ _) (dryTrace_collab _ hA))
          hmid)
        (dryTrace_execCommand _ _ _ _ _))
      (dryTrace_execCommand _ _ _ _ _))
    (dryTrace_execCommand _ _ _ _ _)

theorem dryTrace_selectivePost {ctx : Ctx} {sys : SysCtx} {tempBranch : String}
    (hB : jsTruthy ctx.targetBranch = false) :
    DryTrace (selectivePost ctx sys tempBranch) := by
  unfold selectivePost gitPush gitCheckout gitPull gitMerge gitDeleteBranch
  rw [hB]
  exact dryTrace_append
    (dryTrace_append
      (dryTrace_append
        (dryTrace_append
          (dryTrace_append (dryTrace_execCommand _ _ _ _ _) (dryTrace_execCommand _ _ _ _ _))
          (dryTrace_execCommand _ _ _ _ _))
        (dryTrace_execCommand _ _ _ _ _))
      (dryTrace_execCommand _ _ _ _ _))
    (dryTrace_append (dryTrace_execCommand _ _ _ _ _) (dryTrace_execCommand _ _ _ _ _))

/-- Success of `publishChanges` decomposed into its four segments. -/
theorem publishChanges_eq_some {ctx : Ctx} {sys : SysCtx}
    {projects : List RushProject} {orderedChanges : List ChangeInfo} {now : Nat}
    {tr : List Event} (hne : 0 < orderedChanges.length)
    (h : publishChanges ctx sys projects orderedChanges now = some tr) :
    ∃ pub tags,
      seqOpt (orderedChanges.map (publishStepFor ctx sys projects)) = some pub ∧
      seqOpt (orderedChanges.map (tagStepFor ctx sys projects)) = some tags ∧
      tr = selectivePre ctx sys ("publish-" ++ toString now) ++ pub ++ tags
        ++ selectivePost ctx sys ("publish-" ++ toString now) := by
  unfold publishChanges at h
  rw [if_pos hne] at h
  cases hpub : seqOpt (orderedChanges.map (publishStepFor ctx sys projects)) with
  | none => rw [hpub] at h; simp at h
  | some pub =>
    cases htag : seqOpt (orderedChanges.map (tagStepFor ctx sys projects)) with
    | none => rw [hpub, htag] at h; simp at h
    | some tags =>
      rw [hpub, htag] at h
      simp only [Option.some_bind, Option.map_some', Option.some.injEq] at h
      exact ⟨pub, tags, rfl, rfl, h.symm⟩

/-! ## The claims -/

/-- Claim C1: in the selective workflow, when none of `apply`, `targetBranch`,
`publish` is set, no process is ever spawned, every command-gate call passes
`shouldExecute = false`, every collaborator call carries a false mutation bit,
and still exactly one log line is printed per gated action. -/
theorem selective_no_flags_is_pure_dry_run
    (ctx : Ctx) (sys : SysCtx) (projects : List RushProject)
    (orderedChanges : List ChangeInfo) (now : Nat) (tr : List Event)
    (hA : ctx.apply = false) (hB : jsTruthy ctx.targetBranch = false)
    (hP : ctx.publish = false)
    (h : publishChanges ctx sys projects orderedChanges now = some tr) :
    (∀ e ∈ tr, e.isSpawn = false) ∧
    (∀ c, Event.gate c ∈ tr → c.shouldExecute = false) ∧
    (∀ e ∈ tr, e.isRealMutation = false) ∧
    tr.countP Event.isLog = tr.countP Event.isGate := by
  by_cases hne : 0 < orderedChanges.length
  · obtain ⟨pub, tags, hpub, htag, rfl⟩ := publishChanges_eq_some hne h
    have hdpub : DryTrace pub :=
      dryTrace_seqOpt
        (fun o ho evs he => by
          obtain ⟨change, _, rfl⟩ := List.mem_map.mp ho
          exact dryTrace_publishStepFor hP he) hpub
    have hdtag : DryTrace tags :=
      dryTrace_seqOpt
        (fun o ho evs he => by
          obtain ⟨change, _, rfl⟩ := List.mem_map.mp ho
          exact dryTrace_tagStepFor hB he) htag
    exact dryTrace_append
      (dryTrace_append
        (dryTrace_append (dryTrace_selectivePre hA hB) hdpub) hdtag)
      (dryTrace_selectivePost hB)
  · unfold publishChanges at h
    rw [if_neg hne] at h
    simp only [Option.some.injEq] at h
    subst h
    exact dryTrace_nil

/-- A run configuration with no flags at all set. -/
def ctxNoFlags : Ctx :=
  ⟨false, false, false, false, false, false, none, none, none, none, none⟩

/-- A small demo ambient state. -/
def sysDemo : SysCtx := ⟨"/repo", [("PATH", "/bin")], "npm"⟩

/-- Two demo projects, one publishable. -/
def projsDemo : List RushProject :=
  [⟨"pkgA", "/repo/a", true, "1.0.0"⟩, ⟨"pkgB", "/repo/b", false, "1.0.0"⟩]

/-- Two demo change records: a minor bump and a dependency-only change. -/
def changesDemo : List ChangeInfo :=
  [⟨"pkgA", ChangeType.minor, "1.1.0"⟩, ⟨"pkgB", ChangeType.dependency, "1.0.1"⟩]

/-- The trace of the no-flag demo run. -/
def trNoFlags : List Event :=
  (publishChanges ctxNoFlags sysDemo projsDemo changesDemo 42).getD []

/-- Witness for C1 at the concrete no-flag demo run. -/
theorem selective_no_flags_is_pure_dry_run_witness :
    (∀ e ∈ trNoFlags, e.isSpawn = false) ∧
    (∀ c, Event.gate c ∈ trNoFlags → c.shouldExecute = false) ∧
    (∀ e ∈ trNoFlags, e.isRealMutation = false) ∧
    trNoFlags.countP Event.isLog = trNoFlags.countP Event.isGate :=
  selective_no_flags_is_pure_dry_run ctxNoFlags sysDemo projsDemo changesDemo 42
    trNoFlags rfl rfl rfl (by rfl)

/-- Claim C3: every `_execCommand` invocation prints exactly one log line —
`EXECUTING`-marked when `shouldRun` is true, the same line `DRYRUN`-marked
otherwise — records exactly one gate decision, and spawns exactly the given
command in the given working directory iff `shouldRun` is true. -/
theorem execCommand_contract (sys : SysCtx) (b : Bool) (cmd : String)
    (args : List String) (wd : String) (env : Option Env) :
    ((execCommand sys b cmd args wd env).filter Event.isLog
        = [Event.log (execLine b cmd args (relDirDisplay sys wd))]) ∧
    ((execCommand sys b cmd args wd env).filter Event.isGate
        = [Event.gate ⟨b, cmd, args, wd, env⟩]) ∧
    ((execCommand sys b cmd args wd env).filter Event.isSpawn
        = if b then [Event.spawn cmd args wd env] else []) ∧
    (execLine true cmd args (relDirDisplay sys wd)
        = "\n* EXECUTING: " ++ (cmd ++ " " ++ joinSpace args ++ " "
            ++ relDirDisplay sys wd)) ∧
    (execLine false cmd args (relDirDisplay sys wd)
        = "\n* DRYRUN: " ++ (cmd ++ " " ++ joinSpace args ++ " "
            ++ relDirDisplay sys wd)) := by
  refine ⟨?_, ?_, ?_, ?_, ?_⟩
  · cases b <;> simp [execCommand, Event.isLog, Event.isGate, Event.isSpawn]
  · cases b <;> simp [execCommand, Event.isLog, Event.isGate, Event.isSpawn]
  · cases b <;> simp [execCommand, Event.isLog, Event.isGate, Event.isSpawn]
  · unfold execLine
    rw [if_pos rfl]
    simp only [String.append_assoc]
    rfl
  · unfold execLine
    rw [if_neg (by simp)]
    simp only [String.append_assoc]
    rfl

/-- Claim C4: with an empty resolved change-record set the selective workflow
does nothing at all — no git command, no log line for one, no publish, no
tag — and the run completes normally with exit code 0, for any flags. -/
theorem empty_changes_do_nothing (ctx : Ctx) (sys : SysCtx)
    (projects : List RushProject)
    (registryClient : String → String → Env → List String) (now : Nat)
    (hreg : ctx.regenerateChangelogs = false)
    (hmode : (ctx.includeAll && ctx.publish) = false) :
    publishChanges ctx sys projects [] now = some [] ∧
    onExecute ctx sys projects registryClient [] now true
      = some (0, [Event.log startLine, Event.log finishLine]) := by
  constructor
  · rfl
  · unfold onExecute
    rw [if_neg (by simp), if_neg (by simp [hreg]), if_neg (by simp [hmode])]
    rfl

/-- Witness for C4: no-flag configuration, empty change set. -/
theorem empty_changes_do_nothing_witness :
    publishChanges ctxNoFlags sysDemo projsDemo [] 42 = some [] ∧
    onExecute ctxNoFlags sysDemo projsDemo (fun _ _ _ => []) [] 42 true
      = some (0, [Event.log startLine, Event.log finishLine]) :=
  empty_changes_do_nothing ctxNoFlags sysDemo projsDemo (fun _ _ _ => []) 42 rfl rfl

/-- Claim C7: when the upfront `GitPolicy.check` fails, the run terminates with
exit code 1 having produced nothing beyond the opening banner: no gate call,
no spawn, no collaborator call, for every flag combination. -/
theorem policy_failure_exits_one (ctx : Ctx) (sys : SysCtx)
    (projects : List RushProject)
    (registryClient : String → String → Env → List String)
    (orderedChanges : List ChangeInfo) (now : Nat) :
    onExecute ctx sys projects registryClient orderedChanges now false
      = some (1, [Event.log startLine]) := by
  unfold onExecute
  rw [if_pos rfl]

/-- Claim C9: `--regenerate-changelogs` absent, the publish-all workflow is
selected exactly when `--include-all` and `--publish` are both set; in
particular `--include-all` without `--publish` is not rejected and runs the
selective workflow. -/
theorem workflow_mode_selection (ctx : Ctx) (sys : SysCtx)
    (projects : List RushProject)
    (registryClient : String → String → Env → List String)
    (orderedChanges : List ChangeInfo) (now : Nat)
    (hreg : ctx.regenerateChangelogs = false) :
    ((ctx.includeAll && ctx.publish) = false →
      onExecute ctx sys projects registryClient orderedChanges now true
        = (publishChanges ctx sys projects orderedChanges now).map
            (fun tr => (0, [Event.log startLine] ++ tr ++ [Event.log finishLine]))) ∧
    ((ctx.includeAll && ctx.publish) = true →
      onExecute ctx sys projects registryClient orderedChanges now true
        = (publishAll ctx sys registryClient projects).map
            (fun tr => (0, [Event.log startLine] ++ tr ++ [Event.log finishLine]))) := by
  constructor
  · intro hmode
    unfold onExecute
    rw [if_neg (by simp), if_neg (by simp [hreg]), if_neg (by simp [hmode])]
  · intro hmode
    unfold onExecute
    rw [if_neg (by simp), if_neg (by simp [hreg]), if_pos (by simp [hmode])]

/-- The configuration `--include-all` without `--publish`. -/
def ctxIncludeAllOnly : Ctx :=
  ⟨false, false, true, false, false, false, none, none, none, none, none⟩

/-- Witness for C9: with `--include-all` but no `--publish`, the run takes the
selective path. -/
theorem workflow_mode_selection_witness :
    onExecute ctxIncludeAllOnly sysDemo projsDemo (fun _ _ _ => []) changesDemo 42 true
      = (publishChanges ctxIncludeAllOnly sysDemo projsDemo changesDemo 42).map
          (fun tr => (0, [Event.log startLine] ++ tr ++ [Event.log finishLine])) :=
  (workflow_mode_selection ctxIncludeAllOnly sysDemo projsDemo (fun _ _ _ => [])
    changesDemo 42 rfl).1 rfl

/-- Does the trace contain an actual process spawn? -/
def hasSpawn (tr : List Event) : Bool :=
  tr.any Event.isSpawn

theorem hasSpawn_execCommand (sys : SysCtx) (b : Bool) (cmd : String)
    (args : List String) (wd : String) (env : Option Env) :
    hasSpawn (execCommand sys b cmd args wd env) = b := by
  cases b <;> simp [hasSpawn, execCommand, Event.isSpawn]

/-- Claim C2: per change record — a record not above `dependency` contributes
nothing to the publish loop nor to the tag loop; a record above `dependency`
is actually published iff `publish` is set and the project's `shouldPublish`
is true (with `shouldPublish` false the publish step emits nothing, not even
a log line), and actually tagged iff additionally the target branch is set
and no registry URL override is present. -/
theorem change_record_publish_tag_gating (ctx : Ctx) (sys : SysCtx)
    (projects : List RushProject) (change : ChangeInfo) (proj : RushProject)
    (hfind : findProject projects change.packageName = some proj) :
    (change.changeType.above ChangeType.dependency = false →
      publishStepFor ctx sys projects change = some [] ∧
      tagStepFor ctx sys projects change = some []) ∧
    (change.changeType.above ChangeType.dependency = true →
      ∃ pubEvs tagEvs,
        publishStepFor ctx sys projects change = some pubEvs ∧
        tagStepFor ctx sys projects change = some tagEvs ∧
        hasSpawn pubEvs = (ctx.publish && proj.shouldPublish) ∧
        (proj.shouldPublish = false → pubEvs = []) ∧
        hasSpawn tagEvs = (ctx.publish && proj.shouldPublish
          && jsTruthy ctx.targetBranch && !(jsTruthy ctx.registryUrl))) := by
  constructor
  · intro hdep
    constructor
    · unfold publishStepFor
      rw [if_neg (by simp [hdep])]
    · unfold tagStepFor
      rw [if_neg (by simp [hdep])]
  · intro hdep
    refine ⟨(if proj.shouldPublish then
        execCommand sys ctx.publish sys.npmToolFilename (npmPublishArgs ctx sys)
          proj.projectFolder (some (npmRegistryPair ctx sys).1)
      else []),
      (if proj.shouldPublish then
        gitAddTag ctx sys change.packageName change.newVersion
      else []), ?_, ?_, ?_, ?_, ?_⟩
    · unfold publishStepFor
      rw [if_pos hdep, hfind, Option.some_bind]
      unfold npmPublish
      rw [hfind, Option.map_some']
    · unfold tagStepFor
      rw [if_pos hdep, hfind, Option.map_some']
    · by_cases hsp : proj.shouldPublish
      · rw [if_pos hsp, hasSpawn_execCommand, hsp, Bool.and_true]
      · rw [if_neg hsp]
        simp only [Bool.not_eq_true] at hsp
        rw [hsp, Bool.and_false]
        rfl
    · intro hsp
      rw [if_neg (by simp [hsp])]
    · by_cases hsp : proj.shouldPublish
      · rw [if_pos hsp, hsp]
        unfold gitAddTag
        rw [hasSpawn_execCommand]
        cases ctx.publish <;> cases jsTruthy ctx.targetBranch
          <;> cases jsTruthy ctx.registryUrl <;> rfl
      · rw [if_neg hsp]
        simp only [Bool.not_eq_true] at hsp
        rw [hsp]
        simp [hasSpawn]

/-- The configuration `--apply --publish --target-branch main`. -/
def ctxApplyPublishBranch : Ctx :=
  ⟨true, true, false, false, false, false, some "main", none, none, none, none⟩

/-- The demo minor-bump change record. -/
def chMinorDemo : ChangeInfo := ⟨"pkgA", ChangeType.minor, "1.1.0"⟩

/-- The demo publishable project, as found in `projsDemo`. -/
def projADemo : RushProject := ⟨"pkgA", "/repo/a", true, "1.0.0"⟩

/-- Witness for C2: the minor-bump record of a publishable project under
`--apply --publish --target-branch`. -/
theorem change_record_publish_tag_gating_witness :
    ∃ pubEvs tagEvs,
      publishStepFor ctxApplyPublishBranch sysDemo projsDemo chMinorDemo = some pubEvs ∧
      tagStepFor ctxApplyPublishBranch sysDemo projsDemo chMinorDemo = some tagEvs ∧
      hasSpawn pubEvs = (ctxApplyPublishBranch.publish && projADemo.shouldPublish) ∧
      (projADemo.shouldPublish = false → pubEvs = []) ∧
      hasSpawn tagEvs = (ctxApplyPublishBranch.publish && projADemo.shouldPublish
        && jsTruthy ctxApplyPublishBranch.targetBranch
        && !(jsTruthy ctxApplyPublishBranch.registryUrl)) :=
  (change_record_publish_tag_gating ctxApplyPublishBranch sysDemo projsDemo
    chMinorDemo projADemo (by decide)).2 (by decide)

/-- Is this event one the command gate itself can emit (log, gate record, or
spawn), as opposed to a collaborator call? -/
def Event.isProc (e : Event) : Bool :=
  e.isLog || e.isGate || e.isSpawn

theorem execCommand_true_eq (sys : SysCtx) (cmd : String) (args : List String)
    (wd : String) (env : Option Env) :
    execCommand sys true cmd args wd env
      = [Event.log (execLine true cmd args (relDirDisplay sys wd)),
         Event.gate ⟨true, cmd, args, wd, env⟩,
         Event.spawn cmd args wd env] := by
  simp [execCommand]

theorem execCommand_mem {sys : SysCtx} {b : Bool} {cmd : String}
    {args : List String} {wd : String} {env : Option Env} {e : Event}
    (he : e ∈ execCommand sys b cmd args wd env) : e.isProc = true := by
  cases b
  · rw [execCommand_false_eq] at he
    simp only [List.mem_cons, List.mem_singleton, List.not_mem_nil, or_false] at he
    rcases he with rfl | rfl <;> rfl
  · rw [execCommand_true_eq] at he
    simp only [List.mem_cons, List.mem_singleton, List.not_mem_nil, or_false] at he
    rcases he with rfl | rfl | rfl <;> rfl

theorem seqOpt_mem {l : List (Option (List Event))} {tr : List Event} {e : Event}
    (h : seqOpt l = some tr) (he : e ∈ tr) : ∃ evs, some evs ∈ l ∧ e ∈ evs := by
  induction l generalizing tr with
  | nil =>
    simp only [seqOpt, Option.some.injEq] at h
    subst h
    simp at he
  | cons o rest ih =>
    cases o with
    | none => simp [seqOpt] at h
    | some a =>
      cases hrest : seqOpt rest with
      | none => simp [seqOpt, hrest] at h
      | some b =>
        simp only [seqOpt, hrest, Option.some_bind, Option.map_some',
          Option.some.injEq] at h
        subst h
        rcases List.mem_append.mp he with h1 | h1
        · exact ⟨a, by simp, h1⟩
        · obtain ⟨evs, hin, hm⟩ := ih hrest h1
          exact ⟨evs, by simp [hin], hm⟩

theorem npmPublish_mem {ctx : Ctx} {sys : SysCtx} {projects : List RushProject}
    {name path : String} {evs : List Event} {e : Event}
    (h : npmPublish ctx sys projects name path = some evs) (he : e ∈ evs) :
    e.isProc = true := by
  unfold npmPublish at h
  cases hf : findProject projects name with
  | none => rw [hf] at h; simp at h
  | some proj =>
    rw [hf] at h
    simp only [Option.map_some', Option.some.injEq] at h
    subst h
    split at he
    · exact execCommand_mem he
    · simp at he

theorem publishStepFor_mem {ctx : Ctx} {sys : SysCtx}
    {projects : List RushProject} {change : ChangeInfo} {evs : List Event}
    {e : Event} (h : publishStepFor ctx sys projects change = some evs)
    (he : e ∈ evs) : e.isProc = true := by
  unfold publishStepFor at h
  split at h
  · cases hf : findProject projects change.packageName with
    | none => rw [hf] at h; simp at h
    | some proj =>
      rw [hf] at h
      simp only [Option.some_bind] at h
      exact npmPublish_mem h he
  · simp only [Option.some.injEq] at h
    subst h
    simp at he

theorem tagStepFor_mem {ctx : Ctx} {sys : SysCtx}
    {projects : List RushProject} {change : ChangeInfo} {evs : List Event}
    {e : Event} (h : tagStepFor ctx sys projects change = some evs)
    (he : e ∈ evs) : e.isProc = true := by
  unfold tagStepFor at h
  split at h
  · cases hf : findProject projects change.packageName with
    | none => rw [hf] at h; simp at h
    | some proj =>
      rw [hf] at h
      simp only [Option.map_some', Option.some.injEq] at h
      subst h
      split at he
      · exact execCommand_mem he
      · simp at he
  · simp only [Option.some.injEq] at h
    subst h
    simp at he

theorem selectivePost_mem {ctx : Ctx} {sys : SysCtx} {tb : String} {e : Event}
    (he : e ∈ selectivePost ctx sys tb) : e.isProc = true := by
  unfold selectivePost gitPush gitCheckout gitPull gitMerge gitDeleteBranch at he
  simp only [List.mem_append] at he
  rcases he with ((((h | h) | h) | h) | h) | h | h <;> exact execCommand_mem h

theorem selectivePre_mem {ctx : Ctx} {sys : SysCtx} {tb : String} {e : Event}
    (he : e ∈ selectivePre ctx sys tb) :
    e.isProc = true ∨ e = Event.updatePackages ctx.apply ∨
    (prereleaseHasValue ctx = false ∧
      (e = Event.updateChangelogs ctx.apply ∨
       e = Event.deleteChangeFiles (ctx.apply || jsTruthy ctx.targetBranch))) := by
  unfold selectivePre gitCheckout gitAddChanges gitCommit gitPush at he
  simp only [List.mem_append] at he
  rcases he with ((((h | h) | h) | h) | h) | h
  · exact Or.inl (execCommand_mem h)
  · simp only [List.mem_singleton] at h
    exact Or.inr (Or.inl h)
  · by_cases hpre : prereleaseHasValue ctx
    · rw [if_pos hpre] at h
      simp at h
    · rw [if_neg hpre] at h
      simp only [List.mem_cons, List.mem_singleton, List.not_mem_nil, or_false] at h
      exact Or.inr (Or.inr ⟨by simp [hpre], h⟩)
  · exact Or.inl (execCommand_mem h)
  · exact Or.inl (execCommand_mem h)
  · exact Or.inl (execCommand_mem h)

/-- Case analysis on an event of a (non-empty-change) selective-workflow
trace: it comes from the fixed prefix, the publish loop, the tag loop, or the
fixed suffix. -/
theorem publishChanges_mem {ctx : Ctx} {sys : SysCtx}
    {projects : List RushProject} {orderedChanges : List ChangeInfo} {now : Nat}
    {tr : List Event} {e : Event} (hne : 0 < orderedChanges.length)
    (h : publishChanges ctx sys projects orderedChanges now = some tr)
    (he : e ∈ tr) :
    e ∈ selectivePre ctx sys ("publish-" ++ toString now) ∨
    (∃ change ∈ orderedChanges, ∃ evs,
      publishStepFor ctx sys projects change = some evs ∧ e ∈ evs) ∨
    (∃ change ∈ orderedChanges, ∃ evs,
      tagStepFor ctx sys projects change = some evs ∧ e ∈ evs) ∨
    e ∈ selectivePost ctx sys ("publish-" ++ toString now) := by
  obtain ⟨pub, tags, hpub, htag, rfl⟩ := publishChanges_eq_some hne h
  rcases List.mem_append.mp he with h1 | h1
  · rcases List.mem_append.mp h1 with h2 | h2
    · rcases List.mem_append.mp h2 with h3 | h3
      · exact Or.inl h3
      · obtain ⟨evs, hin, hm⟩ := seqOpt_mem hpub h3
        obtain ⟨change, hc, heq⟩ := List.mem_map.mp hin
        exact Or.inr (Or.inl ⟨change, hc, evs, heq, hm⟩)
    · obtain ⟨evs, hin, hm⟩ := seqOpt_mem htag h2
      obtain ⟨change, hc, heq⟩ := List.mem_map.mp hin
      exact Or.inr (Or.inr (Or.inl ⟨change, hc, evs, heq, hm⟩))
  · exact Or.inr (Or.inr (Or.inr h1))

theorem isProc_not_changelog {e : Event} (h : e.isProc = true) :
    e.isChangelogUpdate = false ∧ e.isChangeFileDeletion = false := by
  cases e <;> simp_all [Event.isProc, Event.isLog, Event.isGate, Event.isSpawn,
    Event.isChangelogUpdate, Event.isChangeFileDeletion]

/-- Claim C5: with a prerelease token present, the selective workflow performs
neither the changelog update nor the change-file deletion, whatever the other
flags; without a token, the changelog update is invoked carrying exactly the
`apply` flag and the deletion carrying exactly `apply OR targetBranch`. -/
theorem prerelease_gates_changelog_and_deletion
    (ctx : Ctx) (sys : SysCtx) (projects : List RushProject)
    (orderedChanges : List ChangeInfo) (now : Nat) (tr : List Event)
    (hne : 0 < orderedChanges.length)
    (h : publishChanges ctx sys projects orderedChanges now = some tr) :
    (prereleaseHasValue ctx = true →
      ∀ e ∈ tr, e.isChangelogUpdate = false ∧ e.isChangeFileDeletion = false) ∧
    (prereleaseHasValue ctx = false →
      Event.updateChangelogs ctx.apply ∈ tr ∧
      Event.deleteChangeFiles (ctx.apply || jsTruthy ctx.targetBranch) ∈ tr ∧
      (∀ b, Event.updateChangelogs b ∈ tr → b = ctx.apply) ∧
      (∀ b, Event.deleteChangeFiles b ∈ tr →
        b = (ctx.apply || jsTruthy ctx.targetBranch))) := by
  constructor
  · intro hpre e he
    rcases publishChanges_mem hne h he with
      h1 | ⟨c, _, evs, heq, hm⟩ | ⟨c, _, evs, heq, hm⟩ | h1
    · rcases selectivePre_mem h1 with hp | rfl | ⟨hf, _⟩
      · exact isProc_not_changelog hp
      · exact ⟨rfl, rfl⟩
      · rw [hpre] at hf
        cases hf
    · exact isProc_not_changelog (publishStepFor_mem heq hm)
    · exact isProc_not_changelog (tagStepFor_mem heq hm)
    · exact isProc_not_changelog (selectivePost_mem h1)
  · intro hpre
    have hmemtr : ∀ x ∈ selectivePre ctx sys ("publish-" ++ toString now), x ∈ tr := by
      obtain ⟨pub, tags, hpub, htag, htr⟩ := publishChanges_eq_some hne h
      intro x hx
      rw [htr]
      exact List.mem_append.mpr (Or.inl (List.mem_append.mpr (Or.inl
        (List.mem_append.mpr (Or.inl hx)))))
    refine ⟨?_, ?_, ?_, ?_⟩
    · apply hmemtr
      unfold selectivePre
      rw [if_neg (by simp [hpre])]
      simp
    · apply hmemtr
      unfold selectivePre
      rw [if_neg (by simp [hpre])]
      simp
    · intro b hb
      rcases publishChanges_mem hne h hb with
        h1 | ⟨c, _, evs, heq, hm⟩ | ⟨c, _, evs, heq, hm⟩ | h1
      · rcases selectivePre_mem h1 with hp | hupd | ⟨_, hcl | hdel⟩
        · exact absurd hp (by simp [Event.isProc, Event.isLog, Event.isGate,
            Event.isSpawn])
        · simp at hupd
        · injection hcl
        · simp at hdel
      · exact absurd (publishStepFor_mem heq hm)
          (by simp [Event.isProc, Event.isLog, Event.isGate, Event.isSpawn])
      · exact absurd (tagStepFor_mem heq hm)
          (by simp [Event.isProc, Event.isLog, Event.isGate, Event.isSpawn])
      · exact absurd (selectivePost_mem h1)
          (by simp [Event.isProc, Event.isLog, Event.isGate, Event.isSpawn])
    · intro b hb
      rcases publishChanges_mem hne h hb with
        h1 | ⟨c, _, evs, heq, hm⟩ | ⟨c, _, evs, heq, hm⟩ | h1
      · rcases selectivePre_mem h1 with hp | hupd | ⟨_, hcl | hdel⟩
        · exact absurd hp (by simp [Event.isProc, Event.isLog, Event.isGate,
            Event.isSpawn])
        · simp at hupd
        · simp at hcl
        · injection hdel
      · exact absurd (publishStepFor_mem heq hm)
          (by simp [Event.isProc, Event.isLog, Event.isGate, Event.isSpawn])
      · exact absurd (tagStepFor_mem heq hm)
          (by simp [Event.isProc, Event.isLog, Event.isGate, Event.isSpawn])
      · exact absurd (selectivePost_mem h1)
          (by simp [Event.isProc, Event.isLog, Event.isGate, Event.isSpawn])

/-- The trace of the demo run under `--apply --publish --target-branch`. -/
def trApplyPublishBranch : List Event :=
  (publishChanges ctxApplyPublishBranch sysDemo projsDemo changesDemo 42).getD []

/-- Witness for C5: the demo run has no prerelease token, so the changelog
update and change-file deletion occur with exactly the gating the claim
states. -/
theorem prerelease_gates_changelog_and_deletion_witness :
    Event.updateChangelogs ctxApplyPublishBranch.apply ∈ trApplyPublishBranch ∧
    Event.deleteChangeFiles (ctxApplyPublishBranch.apply
      || jsTruthy ctxApplyPublishBranch.targetBranch) ∈ trApplyPublishBranch ∧
    (∀ b, Event.updateChangelogs b ∈ trApplyPublishBranch →
      b = ctxApplyPublishBranch.apply) ∧
    (∀ b, Event.deleteChangeFiles b ∈ trApplyPublishBranch →
      b = (ctxApplyPublishBranch.apply
        || jsTruthy ctxApplyPublishBranch.targetBranch)) :=
  (prerelease_gates_changelog_and_deletion ctxApplyPublishBranch sysDemo
    projsDemo changesDemo 42 trApplyPublishBranch (by decide) (by rfl)).2 rfl

theorem lookupEnv_cons (a : String × String) (env : Env) (k : String) :
    lookupEnv (a :: env) k = if a.1 = k then some a.2 else lookupEnv env k := by
  by_cases ha : a.1 = k <;>
    simp [lookupEnv, List.find?_cons_of_pos, List.find?_cons_of_neg, ha]

theorem lookup_map_replace (env : Env) (k v : String)
    (hex : env.any (fun p => p.1 = k) = true) :
    lookupEnv (env.map (fun p => if p.1 = k then (k, v) else p)) k = some v := by
  induction env with
  | nil => simp at hex
  | cons a rest ih =>
    rw [List.map_cons, lookupEnv_cons]
    by_cases ha : a.1 = k
    · rw [if_pos ha, if_pos rfl]
    · rw [if_neg ha, if_neg ha]
      exact ih (by simpa [List.any_cons, ha] using hex)

theorem lookup_append_new (env : Env) (k v : String) :
    lookupEnv (env ++ [(k, v)]) k = if env.any (fun p => p.1 = k) then
      lookupEnv env k else some v := by
  induction env with
  | nil => simp [lookupEnv]
  | cons a rest ih =>
    rw [List.cons_append, lookupEnv_cons, lookupEnv_cons]
    by_cases ha : a.1 = k
    · simp [ha]
    · rw [if_neg ha, ih, if_neg ha, List.any_cons]
      have hd : decide (a.1 = k) = false := by simp [ha]
      rw [hd, Bool.false_or]

theorem lookup_map_replace_other (env : Env) (k v k' : String) (hk : k' ≠ k) :
    lookupEnv (env.map (fun p => if p.1 = k then (k, v) else p)) k'
      = lookupEnv env k' := by
  induction env with
  | nil => rfl
  | cons a rest ih =>
    rw [List.map_cons, lookupEnv_cons, lookupEnv_cons]
    by_cases ha : a.1 = k
    · rw [if_pos ha, if_neg (show ¬((k, v).1 = k') from fun hh => hk hh.symm),
        if_neg (by rw [ha]; exact fun hh => hk hh.symm)]
      exact ih
    · rw [if_neg ha]
      by_cases ha' : a.1 = k' <;> simp [ha', ih]

theorem lookup_append_other (env : Env) (k v k' : String) (hk : k' ≠ k) :
    lookupEnv (env ++ [(k, v)]) k' = lookupEnv env k' := by
  induction env with
  | nil =>
    rw [List.nil_append, lookupEnv_cons, if_neg (fun hh => hk hh.symm)]
  | cons a rest ih =>
    rw [List.cons_append, lookupEnv_cons, lookupEnv_cons]
    by_cases ha' : a.1 = k' <;> simp [ha', ih]

theorem lookupEnv_setEnvVar_same (env : Env) (k v : String) :
    lookupEnv (setEnvVar env k v) k = some v := by
  unfold setEnvVar
  split
  · exact lookup_map_replace env k v (by assumption)
  · rename_i hnex
    rw [lookup_append_new, if_neg (by simpa using hnex)]

theorem lookupEnv_setEnvVar_other (env : Env) (k v k' : String) (hk : k' ≠ k) :
    lookupEnv (setEnvVar env k v) k' = lookupEnv env k' := by
  unfold setEnvVar
  split
  · exact lookup_map_replace_other env k v k' hk
  · exact lookup_append_other env k v k' hk

/-- Claim C8: the registry probe returns true exactly when the project's current
`package.json` version is a member of the registry client's published-version
list, and the environment it hands the client is the process environment with
`npm_config_registry` — and only that variable — overridden when a registry
URL override is supplied (and exactly the process environment otherwise). -/
theorem packageExists_contract (ctx : Ctx) (sys : SysCtx)
    (registryClient : String → String → Env → List String)
    (proj : RushProject) :
    (packageExists ctx sys registryClient proj = true ↔
      proj.version ∈ registryClient proj.packageName proj.projectFolder
        (packageExistsEnv ctx sys)) ∧
    (∀ url, ctx.registryUrl = some url → url ≠ "" →
      lookupEnv (packageExistsEnv ctx sys) "npm_config_registry" = some url ∧
      (∀ k, k ≠ "npm_config_registry" →
        lookupEnv (packageExistsEnv ctx sys) k = lookupEnv sys.processEnv k)) ∧
    (jsTruthy ctx.registryUrl = false →
      packageExistsEnv ctx sys = sys.processEnv) := by
  refine ⟨?_, ?_, ?_⟩
  · unfold packageExists
    exact List.elem_iff
  · intro url hurl hne
    have henv : packageExistsEnv ctx sys
        = setEnvVar sys.processEnv "npm_config_registry" url := by
      unfold packageExistsEnv
      rw [hurl]
      simp only [if_neg hne]
    rw [henv]
    exact ⟨lookupEnv_setEnvVar_same _ _ _,
      fun k hk => lookupEnv_setEnvVar_other _ _ _ _ hk⟩
  · intro hfalse
    unfold packageExistsEnv
    cases hurl : ctx.registryUrl with
    | none => rfl
    | some url =>
      rw [hurl] at hfalse
      have hurl0 : url = "" := by simpa [jsTruthy] using hfalse
      subst hurl0
      simp

/-- The configuration `--registry https://private.example/` only. -/
def ctxRegistryDemo : Ctx :=
  ⟨false, false, false, false, false, false, none,
    some "https://private.example/", none, none, none⟩

/-- A demo registry client that reports version 1.0.0 as published for every
package. -/
def rcDemo : String → String → Env → List String := fun _ _ _ => ["1.0.0"]

/-- Witness for C8 at the demo configuration with a registry override. -/
theorem packageExists_contract_witness :
    (packageExists ctxRegistryDemo sysDemo rcDemo projADemo = true ↔
      projADemo.version ∈ rcDemo projADemo.packageName projADemo.projectFolder
        (packageExistsEnv ctxRegistryDemo sysDemo)) ∧
    lookupEnv (packageExistsEnv ctxRegistryDemo sysDemo) "npm_config_registry"
      = some "https://private.example/" ∧
    lookupEnv (packageExistsEnv ctxRegistryDemo sysDemo) "PATH"
      = lookupEnv sysDemo.processEnv "PATH" :=
  ⟨(packageExists_contract ctxRegistryDemo sysDemo rcDemo projADemo).1,
   ((packageExists_contract ctxRegistryDemo sysDemo rcDemo projADemo).2.1
      "https://private.example/" rfl (by decide)).1,
   ((packageExists_contract ctxRegistryDemo sysDemo rcDemo projADemo).2.1
      "https://private.example/" rfl (by decide)).2 "PATH" (by decide)⟩

/-- Is this gate call a `git push`? -/
def GateCall.isGitPush (c : GateCall) : Bool :=
  c.command == "git" && (match c.args with
    | a :: _ => a == "push"
    | [] => false)

/-- Is this event a `git push` gate invocation? -/
def Event.isGitPushGate : Event → Bool
  | .gate c => c.isGitPush
  | _ => false

theorem execCommand_mem_cases {sys : SysCtx} {b : Bool} {cmd : String}
    {args : List String} {wd : String} {env : Option Env} {e : Event}
    (he : e ∈ execCommand sys b cmd args wd env) :
    e = Event.log (execLine b cmd args (relDirDisplay sys wd)) ∨
    e = Event.gate ⟨b, cmd, args, wd, env⟩ ∨
    (e = Event.spawn cmd args wd env ∧ b = true) := by
  cases b
  · rw [execCommand_false_eq] at he
    simp only [List.mem_cons, List.mem_singleton, List.not_mem_nil, or_false] at he
    tauto
  · rw [execCommand_true_eq] at he
    simp only [List.mem_cons, List.mem_singleton, List.not_mem_nil, or_false] at he
    tauto

/-- Everything an event of one `_publishAll` scan step can be. -/
theorem publishAllStep_mem {ctx : Ctx} {sys : SysCtx}
    {rc : String → String → Env → List String} {projects : List RushProject}
    {proj : RushProject} {evs : List Event} {b : Bool} {e : Event}
    (h : publishAllStep ctx sys rc projects proj = some (evs, b))
    (he : e ∈ evs) :
    e = Event.log (skipLine proj.packageName) ∨
    e ∈ execCommand sys ctx.publish sys.npmToolFilename (npmPublishArgs ctx sys)
        proj.projectFolder (some (npmRegistryPair ctx sys).1) ∨
    e ∈ gitAddTag ctx sys proj.packageName proj.version := by
  unfold publishAllStep at h
  split at h
  · split at h
    · cases hnp : npmPublish ctx sys projects proj.packageName proj.projectFolder with
      | none => rw [hnp] at h; simp at h
      | some npmEvs =>
        rw [hnp] at h
        simp only [Option.map_some', Option.some.injEq, Prod.mk.injEq] at h
        obtain ⟨hevs, _⟩ := h
        subst hevs
        rcases List.mem_append.mp he with h1 | h1
        · unfold npmPublish at hnp
          cases hf : findProject projects proj.packageName with
          | none => rw [hf] at hnp; simp at hnp
          | some inner =>
            rw [hf] at hnp
            simp only [Option.map_some', Option.some.injEq] at hnp
            subst hnp
            split at h1
            · exact Or.inr (Or.inl h1)
            · simp at h1
        · exact Or.inr (Or.inr h1)
    · simp only [Option.some.injEq, Prod.mk.injEq] at h
      obtain ⟨hevs, _⟩ := h
      subst hevs
      simp only [List.mem_singleton] at he
      exact Or.inl he
  · simp only [Option.some.injEq, Prod.mk.injEq] at h
    obtain ⟨hevs, _⟩ := h
    subst hevs
    simp at he

/-- The `updated` bit a scan step reports is exactly "publishable and (forced
or not already in the registry)". -/
theorem publishAllStep_updated {ctx : Ctx} {sys : SysCtx}
    {rc : String → String → Env → List String} {projects : List RushProject}
    {proj : RushProject} {evs : List Event} {b : Bool}
    (h : publishAllStep ctx sys rc projects proj = some (evs, b)) :
    b = (proj.shouldPublish && (ctx.force || !(packageExists ctx sys rc proj))) := by
  unfold publishAllStep at h
  split at h
  · rename_i hsp
    split at h
    · rename_i hcond
      cases hnp : npmPublish ctx sys projects proj.packageName proj.projectFolder with
      | none => rw [hnp] at h; simp at h
      | some npmEvs =>
        rw [hnp] at h
        simp only [Option.map_some', Option.some.injEq, Prod.mk.injEq] at h
        rw [hsp, hcond, ← h.2]
        rfl
    · rename_i hcond
      simp only [Option.some.injEq, Prod.mk.injEq] at h
      rw [hsp, (by simpa using hcond : (ctx.force || !(packageExists ctx sys rc proj)) = false), ← h.2]
      rfl
  · rename_i hsp
    simp only [Option.some.injEq, Prod.mk.injEq] at h
    rw [(by simpa using hsp : proj.shouldPublish = false), ← h.2]
    rfl

/-- Predicate: `_publishAll` reports `updated` iff some scanned project qualifies. -/
def publishAllUpdated (ctx : Ctx) (sys : SysCtx)
    (rc : String → String → Env → List String)
    (projects : List RushProject) : Bool :=
  projects.any (fun proj =>
    proj.shouldPublish && (ctx.force || !(packageExists ctx sys rc proj)))

theorem publishAllLoop_inv {ctx : Ctx} {sys : SysCtx}
    {rc : String → String → Env → List String} {projects : List RushProject}
    {l : List RushProject} {evs : List Event} {upd : Bool}
    (h : publishAllLoop ctx sys rc projects l = some (evs, upd)) :
    (upd = l.any (fun proj =>
      proj.shouldPublish && (ctx.force || !(packageExists ctx sys rc proj)))) ∧
    (∀ e ∈ evs, ∃ proj ∈ l, ∃ evs1 b1,
      publishAllStep ctx sys rc projects proj = some (evs1, b1) ∧ e ∈ evs1) ∧
    (∀ proj ∈ l, ∀ evs1 b1,
      publishAllStep ctx sys rc projects proj = some (evs1, b1) →
      ∀ e ∈ evs1, e ∈ evs) := by
  induction l generalizing evs upd with
  | nil =>
    simp only [publishAllLoop, Option.some.injEq, Prod.mk.injEq] at h
    obtain ⟨h1, h2⟩ := h
    subst h1
    subst h2
    exact ⟨rfl, by simp, by simp⟩
  | cons proj rest ih =>
    cases hstep : publishAllStep ctx sys rc projects proj with
    | none => simp [publishAllLoop, hstep] at h
    | some p =>
      cases hrest : publishAllLoop ctx sys rc projects rest with
      | none => simp [publishAllLoop, hstep, hrest] at h
      | some q =>
        obtain ⟨evs1, b1⟩ := p
        obtain ⟨evs2, upd2⟩ := q
        simp only [publishAllLoop, hstep, hrest, Option.some_bind,
          Option.map_some', Option.some.injEq, Prod.mk.injEq] at h
        obtain ⟨hevs, hupd⟩ := h
        subst hevs
        subst hupd
        obtain ⟨ihu, ihm, ihs⟩ := ih hrest
        refine ⟨?_, ?_, ?_⟩
        · rw [List.any_cons, ← ihu, publishAllStep_updated hstep]
        · intro e he
          rcases List.mem_append.mp he with h1 | h1
          · exact ⟨proj, by simp, evs1, b1, hstep, h1⟩
          · obtain ⟨pr, hpr, evs', b', hstep', hm⟩ := ihm e h1
            exact ⟨pr, by simp [hpr], evs', b', hstep', hm⟩
        · intro pr hpr evs' b' hstep' e he
          rcases List.mem_cons.mp hpr with rfl | hpr'
          · rw [hstep] at hstep'
            simp only [Option.some.injEq, Prod.mk.injEq] at hstep'
            obtain ⟨h1, _⟩ := hstep'
            subst h1
            exact List.mem_append.mpr (Or.inl he)
          · exact List.mem_append.mpr (Or.inr (ihs pr hpr' evs' b' hstep' e he))

theorem stepEvent_not_push {ctx : Ctx} {sys : SysCtx}
    {rc : String → String → Env → List String} {projects : List RushProject}
    {proj : RushProject} {evs : List Event} {b : Bool} {e : Event}
    (h : publishAllStep ctx sys rc projects proj = some (evs, b))
    (he : e ∈ evs) : Event.isGitPushGate e = false := by
  rcases publishAllStep_mem h he with rfl | h1 | h1
  · rfl
  · rcases execCommand_mem_cases h1 with rfl | rfl | ⟨rfl, _⟩
    · rfl
    · simp [Event.isGitPushGate, GateCall.isGitPush, npmPublishArgs]
    · rfl
  · unfold gitAddTag at h1
    rcases execCommand_mem_cases h1 with rfl | rfl | ⟨rfl, _⟩
    · rfl
    · simp [Event.isGitPushGate, GateCall.isGitPush]
    · rfl

theorem countP_gitPush (ctx : Ctx) (sys : SysCtx) (bn : String) :
    (gitPush ctx sys bn).countP Event.isGitPushGate = 1 := by
  unfold gitPush
  cases htb : jsTruthy ctx.targetBranch
  · rw [execCommand_false_eq]
    simp [Event.isGitPushGate, GateCall.isGitPush]
  · rw [execCommand_true_eq]
    simp [Event.isGitPushGate, GateCall.isGitPush]

theorem publishAll_eq_some {ctx : Ctx} {sys : SysCtx}
    {rc : String → String → Env → List String} {projects : List RushProject}
    {tr : List Event} (h : publishAll ctx sys rc projects = some tr) :
    ∃ evs upd, publishAllLoop ctx sys rc projects projects = some (evs, upd) ∧
      upd = publishAllUpdated ctx sys rc projects ∧
      tr = evs ++ (if upd then gitPush ctx sys (optStr ctx.targetBranch) else []) := by
  unfold publishAll at h
  cases hloop : publishAllLoop ctx sys rc projects projects with
  | none => rw [hloop] at h; simp at h
  | some p =>
    obtain ⟨evs, upd⟩ := p
    rw [hloop] at h
    simp only [Option.map_some', Option.some.injEq] at h
    exact ⟨evs, upd, rfl, (publishAllLoop_inv hloop).1, h.symm⟩

/-- Claim C6: in the publish-all workflow, a publishable project is actually
published and handed to the tag step iff `force` is set or its current version
is not in the registry; otherwise the step is exactly one skip log line,
with no publish and no tag. After the scan, the `git push` of the target
branch is gated on at least one project having been published. -/
theorem publishAll_scan_contract :
    (∀ (ctx : Ctx) (sys : SysCtx) (rc : String → String → Env → List String)
       (projects : List RushProject) (proj : RushProject),
      ctx.publish = true → proj.shouldPublish = true →
      findProject projects proj.packageName = some proj →
      ((ctx.force || !(packageExists ctx sys rc proj)) = true →
        ∃ npmEvs,
          publishAllStep ctx sys rc projects proj
            = some (npmEvs ++ gitAddTag ctx sys proj.packageName proj.version,
                true) ∧
          hasSpawn npmEvs = true) ∧
      ((ctx.force || !(packageExists ctx sys rc proj)) = false →
        publishAllStep ctx sys rc projects proj
          = some ([Event.log (skipLine proj.packageName)], false))) ∧
    (∀ (ctx : Ctx) (sys : SysCtx) (rc : String → String → Env → List String)
       (projects : List RushProject) (tr : List Event),
      publishAll ctx sys rc projects = some tr →
      tr.countP Event.isGitPushGate
        = if publishAllUpdated ctx sys rc projects then 1 else 0) := by
  constructor
  · intro ctx sys rc projects proj hpub hsp hfind
    constructor
    · intro hcond
      refine ⟨execCommand sys ctx.publish sys.npmToolFilename
          (npmPublishArgs ctx sys) proj.projectFolder
          (some (npmRegistryPair ctx sys).1), ?_, ?_⟩
      · unfold publishAllStep
        rw [if_pos hsp, if_pos hcond]
        unfold npmPublish
        rw [hfind]
        simp only [Option.map_some']
        rw [if_pos hsp]
      · rw [hasSpawn_execCommand, hpub]
    · intro hcond
      unfold publishAllStep
      rw [if_pos hsp, if_neg (by simp [hcond])]
  · intro ctx sys rc projects tr h
    obtain ⟨evs, upd, hloop, hupd, rfl⟩ := publishAll_eq_some h
    rw [List.countP_append]
    have hz : evs.countP Event.isGitPushGate = 0 := by
      rw [List.countP_eq_zero]
      intro e he
      obtain ⟨pr, _, evs1, b1, hstep, hm⟩ := (publishAllLoop_inv hloop).2.1 e he
      simp [stepEvent_not_push hstep hm]
    rw [hz, Nat.zero_add]
    subst hupd
    cases hcase : publishAllUpdated ctx sys rc projects <;>
      simp [hcase, countP_gitPush]

/-- The configuration `--include-all --publish` (no target branch). -/
def ctxPublishAllDemo : Ctx :=
  ⟨false, true, true, false, false, false, none, none, none, none, none⟩

/-- A demo registry client that reports nothing as published. -/
def rcNone : String → String → Env → List String := fun _ _ _ => []

/-- The trace of the publish-all demo run against the populated registry. -/
def trPublishAllDemo : List Event :=
  (publishAll ctxPublishAllDemo sysDemo rcDemo projsDemo).getD []

/-- Witness for C6: pkgA is published against an empty registry, skipped
against one that already has 1.0.0, and the final push count matches. -/
theorem publishAll_scan_contract_witness :
    (∃ npmEvs,
      publishAllStep ctxPublishAllDemo sysDemo rcNone projsDemo projADemo
        = some (npmEvs ++ gitAddTag ctxPublishAllDemo sysDemo
            projADemo.packageName projADemo.version, true) ∧
      hasSpawn npmEvs = true) ∧
    publishAllStep ctxPublishAllDemo sysDemo rcDemo projsDemo projADemo
      = some ([Event.log (skipLine projADemo.packageName)], false) ∧
    trPublishAllDemo.countP Event.isGitPushGate
      = if publishAllUpdated ctxPublishAllDemo sysDemo rcDemo projsDemo
        then 1 else 0 :=
  ⟨(publishAll_scan_contract.1 ctxPublishAllDemo sysDemo rcNone projsDemo
      projADemo rfl rfl (by decide)).1 (by decide),
   (publishAll_scan_contract.1 ctxPublishAllDemo sysDemo rcDemo projsDemo
      projADemo rfl rfl (by decide)).2 (by decide),
   publishAll_scan_contract.2 ctxPublishAllDemo sysDemo rcDemo projsDemo
      trPublishAllDemo (by rfl)⟩

theorem publishAllStep_spawn_updated {ctx : Ctx} {sys : SysCtx}
    {rc : String → String → Env → List String} {projects : List RushProject}
    {proj : RushProject} {evs : List Event} {b : Bool} {e : Event}
    (h : publishAllStep ctx sys rc projects proj = some (evs, b))
    (he : e ∈ evs) (hs : e.isSpawn = true) : b = true := by
  unfold publishAllStep at h
  split at h
  · split at h
    · cases hnp : npmPublish ctx sys projects proj.packageName proj.projectFolder with
      | none => rw [hnp] at h; simp at h
      | some npmEvs =>
        rw [hnp] at h
        simp only [Option.map_some', Option.some.injEq, Prod.mk.injEq] at h
        exact h.2.symm
    · simp only [Option.some.injEq, Prod.mk.injEq] at h
      obtain ⟨hevs, hb⟩ := h
      subst hevs
      simp only [List.mem_singleton] at he
      subst he
      exact absurd hs (by simp [Event.isSpawn])
  · simp only [Option.some.injEq, Prod.mk.injEq] at h
    obtain ⟨hevs, hb⟩ := h
    subst hevs
    simp at he

theorem publishAllLoop_steps {ctx : Ctx} {sys : SysCtx}
    {rc : String → String → Env → List String} {projects : List RushProject}
    {l : List RushProject} {evs : List Event} {upd : Bool}
    (h : publishAllLoop ctx sys rc projects l = some (evs, upd)) :
    ∀ proj ∈ l, ∃ evs1 b1,
      publishAllStep ctx sys rc projects proj = some (evs1, b1) := by
  induction l generalizing evs upd with
  | nil =>
    intro proj hp
    simp at hp
  | cons p rest ih =>
    cases hstep : publishAllStep ctx sys rc projects p with
    | none => simp [publishAllLoop, hstep] at h
    | some q =>
      cases hrest : publishAllLoop ctx sys rc projects rest with
      | none => simp [publishAllLoop, hstep, hrest] at h
      | some r =>
        intro proj hp
        rcases List.mem_cons.mp hp with rfl | hp'
        · exact ⟨q.1, q.2, hstep⟩
        · exact ih hrest proj hp'

theorem publishAllStep_pub_spawn {ctx : Ctx} {sys : SysCtx}
    {rc : String → String → Env → List String} {projects : List RushProject}
    {proj : RushProject} {evs : List Event} {b : Bool}
    (h : publishAllStep ctx sys rc projects proj = some (evs, b))
    (hb : b = true) (hcoh : findProject projects proj.packageName = some proj)
    (hpub : ctx.publish = true) : ∃ e ∈ evs, e.isSpawn = true := by
  subst hb
  unfold publishAllStep at h
  split at h
  · rename_i hsp
    split at h
    · unfold npmPublish at h
      rw [hcoh] at h
      simp only [Option.map_some', Option.some.injEq, Prod.mk.injEq] at h
      obtain ⟨hevs, _⟩ := h
      subst hevs
      refine ⟨Event.spawn sys.npmToolFilename (npmPublishArgs ctx sys)
          proj.projectFolder (some (npmRegistryPair ctx sys).1), ?_, rfl⟩
      apply List.mem_append.mpr
      left
      rw [if_pos hsp, hpub, execCommand_true_eq]
      simp
    · simp only [Option.some.injEq, Prod.mk.injEq] at h
      exact absurd h.2 (by simp)
  · simp only [Option.some.injEq, Prod.mk.injEq] at h
    exact absurd h.2 (by simp)

/-- Claim C10: in the publish-all workflow run without `--target-branch`, every
`git` gate invocation (tags, pushes) carries `shouldExecute = false`, no `git`
process is ever spawned, every non-`git` gate is the npm tool gated solely by
the `publish` flag — and with `publish` set, a real process is spawned exactly
when some project qualifies for publishing. -/
theorem publishAll_untargeted_gating (ctx : Ctx) (sys : SysCtx)
    (rc : String → String → Env → List String) (projects : List RushProject)
    (tr : List Event)
    (hB : jsTruthy ctx.targetBranch = false)
    (hN : ¬ sys.npmToolFilename = "git")
    (h : publishAll ctx sys rc projects = some tr) :
    (∀ c, Event.gate c ∈ tr → c.command = "git" → c.shouldExecute = false) ∧
    (∀ args cwd env, Event.spawn "git" args cwd env ∉ tr) ∧
    (∀ c, Event.gate c ∈ tr → ¬ c.command = "git" →
      c.command = sys.npmToolFilename ∧ c.shouldExecute = ctx.publish) ∧
    (ctx.publish = true →
      (∀ proj ∈ projects, findProject projects proj.packageName = some proj) →
      hasSpawn tr = publishAllUpdated ctx sys rc projects) := by
  obtain ⟨evs, upd, hloop, hupd, rfl⟩ := publishAll_eq_some h
  obtain ⟨hupdeq, hmem, hsub⟩ := publishAllLoop_inv hloop
  have hgate : ∀ c, Event.gate c ∈ evs
        ++ (if upd then gitPush ctx sys (optStr ctx.targetBranch) else []) →
      (c.command = sys.npmToolFilename ∧ c.shouldExecute = ctx.publish) ∨
      (c.command = "git" ∧ c.shouldExecute = false) := by
    intro c hc
    rcases List.mem_append.mp hc with h1 | h1
    · obtain ⟨pr, hpr, evs1, b1, hstep, hm⟩ := hmem _ h1
      rcases publishAllStep_mem hstep hm with heq | h2 | h2
      · exact absurd heq (by simp)
      · rcases execCommand_mem_cases h2 with heq | heq | ⟨heq, _⟩
        · exact absurd heq (by simp)
        · injection heq with hcx
          subst hcx
          exact Or.inl ⟨rfl, rfl⟩
        · exact absurd heq (by simp)
      · unfold gitAddTag at h2
        rcases execCommand_mem_cases h2 with heq | heq | ⟨heq, _⟩
        · exact absurd heq (by simp)
        · injection heq with hcx
          subst hcx
          refine Or.inr ⟨rfl, ?_⟩
          show (jsTruthy ctx.targetBranch && ctx.publish
            && !(jsTruthy ctx.registryUrl)) = false
          rw [hB]
          rfl
        · exact absurd heq (by simp)
    · by_cases hu : upd = true
      · rw [if_pos hu] at h1
        unfold gitPush at h1
        rcases execCommand_mem_cases h1 with heq | heq | ⟨heq, _⟩
        · exact absurd heq (by simp)
        · injection heq with hcx
          subst hcx
          exact Or.inr ⟨rfl, hB⟩
        · exact absurd heq (by simp)
      · rw [if_neg hu] at h1
        simp at h1
  have hspawn : ∀ cmd args cwd env, Event.spawn cmd args cwd env ∈ evs
        ++ (if upd then gitPush ctx sys (optStr ctx.targetBranch) else []) →
      cmd = sys.npmToolFilename := by
    intro cmd args cwd env hsme
    rcases List.mem_append.mp hsme with h1 | h1
    · obtain ⟨pr, hpr, evs1, b1, hstep, hm⟩ := hmem _ h1
      rcases publishAllStep_mem hstep hm with heq | h2 | h2
      · exact absurd heq (by simp)
      · rcases execCommand_mem_cases h2 with heq | heq | ⟨heq, _⟩
        · exact absurd heq (by simp)
        · exact absurd heq (by simp)
        · simp only [Event.spawn.injEq] at heq
          exact heq.1
      · unfold gitAddTag at h2
        rcases execCommand_mem_cases h2 with heq | heq | ⟨heq, hgb⟩
        · exact absurd heq (by simp)
        · exact absurd heq (by simp)
        · rw [hB] at hgb
          exact absurd hgb (by simp)
    · by_cases hu : upd = true
      · rw [if_pos hu] at h1
        unfold gitPush at h1
        rcases execCommand_mem_cases h1 with heq | heq | ⟨heq, hgb⟩
        · exact absurd heq (by simp)
        · exact absurd heq (by simp)
        · rw [hB] at hgb
          exact absurd hgb (by simp)
      · rw [if_neg hu] at h1
        simp at h1
  refine ⟨?_, ?_, ?_, ?_⟩
  · intro c hc hgit
    rcases hgate c hc with ⟨hcmd, _⟩ | ⟨_, hse⟩
    · exact absurd (hcmd ▸ hgit) hN
    · exact hse
  · intro args cwd env hsme
    exact hN (hspawn "git" args cwd env hsme).symm
  · intro c hc hgit
    rcases hgate c hc with ⟨hcmd, hse⟩ | ⟨hcmd, _⟩
    · exact ⟨hcmd, hse⟩
    · exact absurd hcmd hgit
  · intro hpub hcoh
    cases hu : publishAllUpdated ctx sys rc projects
    · rw [hasSpawn, List.any_eq_false]
      intro e he
      simp only [Bool.not_eq_true]
      rcases List.mem_append.mp he with h1 | h1
      · obtain ⟨pr, hpr, evs1, b1, hstep, hm⟩ := hmem _ h1
        by_cases hs : e.isSpawn = true
        · exfalso
          have hb1 : b1 = true := publishAllStep_spawn_updated hstep hm hs
          have : (pr.shouldPublish
              && (ctx.force || !(packageExists ctx sys rc pr))) = true := by
            rw [← publishAllStep_updated hstep, hb1]
          have hany : publishAllUpdated ctx sys rc projects = true :=
            List.any_eq_true.mpr ⟨pr, hpr, this⟩
          rw [hany] at hu
          cases hu
        · simpa using hs
      · rw [hupd, hu] at h1
        simp at h1
    · have : ∃ pr ∈ projects,
          (pr.shouldPublish && (ctx.force || !(packageExists ctx sys rc pr)))
            = true := List.any_eq_true.mp hu
      obtain ⟨pr, hpr, hpred⟩ := this
      obtain ⟨evs1, b1, hstep⟩ := publishAllLoop_steps hloop pr hpr
      have hb1 : b1 = true := by
        rw [publishAllStep_updated hstep, hpred]
      obtain ⟨e, hm, hs⟩ :=
        publishAllStep_pub_spawn hstep hb1 (hcoh pr hpr) hpub
      rw [hasSpawn, List.any_eq_true]
      exact ⟨e, List.mem_append.mpr (Or.inl (hsub pr hpr evs1 b1 hstep e hm)), hs⟩

/-- The trace of the publish-all demo run against the empty registry. -/
def trPublishAllNoReg : List Event :=
  (publishAll ctxPublishAllDemo sysDemo rcNone projsDemo).getD []

/-- Witness for C10 at the concrete publish-all demo run without a target
branch. -/
theorem publishAll_untargeted_gating_witness :
    (∀ c, Event.gate c ∈ trPublishAllNoReg → c.command = "git" →
      c.shouldExecute = false) ∧
    (∀ args cwd env, Event.spawn "git" args cwd env ∉ trPublishAllNoReg) ∧
    (∀ c, Event.gate c ∈ trPublishAllNoReg → ¬ c.command = "git" →
      c.command = sysDemo.npmToolFilename ∧
      c.shouldExecute = ctxPublishAllDemo.publish) ∧
    hasSpawn trPublishAllNoReg
      = publishAllUpdated ctxPublishAllDemo sysDemo rcNone projsDemo := by
  have h := publishAll_untargeted_gating ctxPublishAllDemo sysDemo rcNone
    projsDemo trPublishAllNoReg rfl (by decide) (by rfl)
  exact ⟨h.1, h.2.1, h.2.2.1, h.2.2.2 rfl (by decide)⟩

end RushPublish
